import Mathlib

/-!
Shallow embedding of the TechInsight embedding / search / ingestion core.

Source files modelled:
  * `src/backend/app/main.py` — tokenizer regex `TOKEN_RE` (line 20),
    `embed_text` (lines 30-40), `semantic_search` (lines 133-180),
    `parse_ts` (lines 43-49).
  * `src/backend/app/scripts/import_articles.py` — `TOKEN_RE` (line 15),
    `embed_text` (lines 32-42), `_parse_ts` (lines 24-30), `main`
    (lines 44-108).

Machine floats: the accumulated term-frequency vector holds small natural
numbers (each token adds exactly 1.0), which float32 represents exactly, so
the pre-normalization pipeline is modelled over `Nat` and only the final
division by the Euclidean norm moves to `Real` (the idealization the spec
itself states with its "up to floating-point rounding" wording).
-/

/-! ### Python string helpers -/

/-- Model of the Python expression `x or d` on strings: `None` and the empty
string are falsy, every other string is truthy. Used by `main.py` line 31:
`(text or "")`. -/
def pyStrOr (x : Option String) (d : String) : String :=
  match x with
  | none => d
  | some s => if s = ("" : String) then d else s

/-- Model of Python `str.lower` applied characterwise; it lower-cases ASCII
letters and is the identity on the CJK/Kana ranges the tokenizer keeps
(full Unicode case mapping outside these classes is out of model scope).
Matches `Char.toLower`: ASCII `A`-`Z` map to `a`-`z`. -/
def pyLowerChar (c : Char) : Char := Char.toLower c

/-! ### Tokenizer

Model of `TOKEN_RE = re.compile(r"[A-Za-z0-9_]+|[぀-ヿ一-鿿]+")`
(identical at `main.py` line 20 and `import_articles.py` line 15) applied
through `TOKEN_RE.findall(text.lower())`: `findall` scans left to right and
returns every maximal run of characters drawn from one of the two character
classes; characters in neither class are skipped. -/

/-- Character class `[A-Za-z0-9_]` of the first regex alternative. -/
def isWordChar (c : Char) : Bool :=
  (('A' ≤ c && c ≤ 'Z') || ('a' ≤ c && c ≤ 'z') ||
    ('0' ≤ c && c ≤ '9') || (c = '_'))

/-- Character class `[぀-ヿ一-鿿]` (Hiragana, Katakana, CJK
Unified Ideographs) of the second regex alternative. -/
def isCjkChar (c : Char) : Bool :=
  ((0x3040 ≤ c.toNat && c.toNat ≤ 0x30ff) ||
    (0x4e00 ≤ c.toNat && c.toNat ≤ 0x9fff))

/-- Which regex alternative a character belongs to, if any:
`some true` for `[A-Za-z0-9_]`, `some false` for the CJK/Kana class,
`none` for characters the regex skips. -/
def tokenClass (c : Char) : Option Bool :=
  if isWordChar c then some true
  else if isCjkChar c then some false
  else none

/-- Close the run in flight, if any, onto the reversed token accumulator. -/
def tokFlush (acc : List (List Char)) (cur : Option (Bool × List Char)) :
    List (List Char) :=
  match cur with
  | none => acc
  | some kr => kr.2.reverse :: acc

/-- One scanning step of `findall`: a character of the class of the run in
flight extends it, a character of the other class closes the run and opens a
new one, a character of neither class closes the run and is skipped. The
run in flight is kept reversed; the accumulated token list is reversed too. -/
def tokStep (st : List (List Char) × Option (Bool × List Char)) (c : Char) :
    List (List Char) × Option (Bool × List Char) :=
  match tokenClass c, st.2 with
  | none, cur => (tokFlush st.1 cur, none)
  | some k, none => (st.1, some (k, [c]))
  | some k, some kr =>
    if kr.1 = k then (st.1, some (k, c :: kr.2))
    else (kr.2.reverse :: st.1, some (k, [c]))

/-- Model of `TOKEN_RE.findall` on a character list: the left-to-right scan
emits every maximal run of characters of a single character class, in source
order, and skips the rest — realized as a single fold carrying the run in
flight. -/
def reFindall (cs : List Char) : List (List Char) :=
  let st := cs.foldl tokStep ([], none)
  (tokFlush st.1 st.2).reverse

/-- Model of `TOKEN_RE.findall(text.lower())` — the shared tokenization step
of both `embed_text` copies (`main.py` line 31, `import_articles.py`
line 33). -/
def tokenize (text : String) : List String :=
  (reFindall (text.toList.map pyLowerChar)).map (fun cs => String.mk cs)

/-! ### UTF-8 encoding — model of Python `str.encode("utf-8")` -/

/-- Standard UTF-8 encoding of one scalar value (Lean `Char` carries the same
scalar-value invariant as a Python `str` code point). -/
def utf8Char (c : Char) : List Nat :=
  let n := c.toNat
  if n < 0x80 then [n]
  else if n < 0x800 then [0xc0 + n / 64, 0x80 + n % 64]
  else if n < 0x10000 then
    [0xe0 + n / 4096, 0x80 + n / 64 % 64, 0x80 + n % 64]
  else
    [0xf0 + n / 262144, 0x80 + n / 4096 % 64, 0x80 + n / 64 % 64,
      0x80 + n % 64]

/-- Model of `t.encode("utf-8")` as a byte list. -/
def utf8Bytes (t : String) : List Nat := (t.toList.map utf8Char).flatten

/-! ### BLAKE2b with digest_size = 8 — model of
`hashlib.blake2b(b, digest_size=8)` (RFC 7693, unkeyed, 8-byte digest). -/

/-- Word width 2^64: all BLAKE2b word arithmetic is modulo this. -/
def w64 : Nat := 18446744073709551616

/-- Addition modulo 2^64. -/
def wadd (a b : Nat) : Nat := (a + b) % w64

/-- Right rotation of a 64-bit word by `n` bits. -/
def wrotr (x n : Nat) : Nat := ((x >>> n) ||| (x <<< (64 - n))) % w64

/-- List read with default 0 (state vectors are fixed-length lists). -/
def lget (v : List Nat) (i : Nat) : Nat := v.getD i 0

/-- BLAKE2b initialization vector (the SHA-512 IV words). -/
def blakeIV : List Nat :=
  [0x6a09e667f3bcc908, 0xbb67ae8584caa73b, 0x3c6ef372fe94f82b,
    0xa54ff53a5f1d36f1, 0x510e527fade682d1, 0x9b05688c2b3e6c1f,
    0x1f83d9abfb41bd6b, 0x5be0cd19137e2179]

/-- Message schedule SIGMA of RFC 7693 (ten rows; rounds 10 and 11 reuse
rows 0 and 1). -/
def blakeSigma : List (List Nat) :=
  [[0, 1, 2, 3, 4, 5, 6, 7, 8, 9, 10, 11, 12, 13, 14, 15],
    [14, 10, 4, 8, 9, 15, 13, 6, 1, 12, 0, 2, 11, 7, 5, 3],
    [11, 8, 12, 0, 5, 2, 15, 13, 10, 14, 3, 6, 7, 1, 9, 4],
    [7, 9, 3, 1, 13, 12, 11, 14, 2, 6, 5, 10, 4, 0, 15, 8],
    [9, 0, 5, 7, 2, 4, 10, 15, 14, 1, 11, 12, 6, 8, 3, 13],
    [2, 12, 6, 10, 0, 11, 8, 3, 4, 13, 7, 5, 15, 14, 1, 9],
    [12, 5, 1, 15, 14, 13, 4, 10, 0, 7, 6, 3, 9, 2, 8, 11],
    [13, 11, 7, 14, 12, 1, 3, 9, 5, 0, 15, 4, 8, 6, 2, 10],
    [6, 15, 14, 9, 11, 3, 0, 8, 12, 2, 13, 7, 1, 4, 10, 5],
    [10, 2, 8, 4, 7, 6, 1, 5, 15, 11, 9, 14, 3, 12, 13, 0]]

/-- The twelve-round schedule: SIGMA rows 0..9 then rows 0 and 1 again. -/
def blakeSigma12 : List (List Nat) :=
  blakeSigma ++ [lget2 0, lget2 1]
where lget2 (i : Nat) : List Nat := blakeSigma.getD i []

/-- The G mixing function of RFC 7693 acting on working-vector indices
`a b c d` with message words `x y`. -/
def gmix (v : List Nat) (a b c d : Nat) (x y : Nat) : List Nat :=
  let va := wadd (wadd (lget v a) (lget v b)) x
  let vd := wrotr (Nat.xor (lget v d) va) 32
  let vc := wadd (lget v c) vd
  let vb := wrotr (Nat.xor (lget v b) vc) 24
  let va2 := wadd (wadd va vb) y
  let vd2 := wrotr (Nat.xor vd va2) 16
  let vc2 := wadd vc vd2
  let vb2 := wrotr (Nat.xor vb vc2) 63
  (((v.set a va2).set b vb2).set c vc2).set d vd2

/-- One round of the BLAKE2b compression function: four column mixes then
four diagonal mixes, message words selected by the SIGMA row `s`. -/
def blakeRound (m : List Nat) (v : List Nat) (s : List Nat) : List Nat :=
  let mi := fun i => lget m (lget s i)
  let v1 := gmix v 0 4 8 12 (mi 0) (mi 1)
  let v2 := gmix v1 1 5 9 13 (mi 2) (mi 3)
  let v3 := gmix v2 2 6 10 14 (mi 4) (mi 5)
  let v4 := gmix v3 3 7 11 15 (mi 6) (mi 7)
  let v5 := gmix v4 0 5 10 15 (mi 8) (mi 9)
  let v6 := gmix v5 1 6 11 12 (mi 10) (mi 11)
  let v7 := gmix v6 2 7 8 13 (mi 12) (mi 13)
  gmix v7 3 4 9 14 (mi 14) (mi 15)

/-- Little-endian interpretation of a byte list as an unsigned integer —
model of `int.from_bytes(h, "little")` (`main.py` line 35). -/
def leNat : List Nat → Nat
  | [] => 0
  | b :: bs => b + 256 * leNat bs

/-- The eight little-endian bytes of a 64-bit word. -/
def le8 (x : Nat) : List Nat := (List.range 8).map (fun i => x / 256 ^ i % 256)

/-- Sixteen little-endian 64-bit message words of one 128-byte block. -/
def bytesToWords (bs : List Nat) : List Nat :=
  (List.range 16).map (fun i => leNat ((bs.drop (8 * i)).take 8))

/-- The BLAKE2b compression function F (RFC 7693 section 3.2): twelve rounds
over the working vector, byte-counter `t`, final-block flag `last`. -/
def blakeCompress (h : List Nat) (m : List Nat) (t : Nat) (last : Bool) :
    List Nat :=
  let v0 := h ++ blakeIV
  let v1 := v0.set 12 (Nat.xor (lget v0 12) (t % w64))
  let v2 := v1.set 13 (Nat.xor (lget v1 13) (t / w64 % w64))
  let v3 := if last then v2.set 14 (Nat.xor (lget v2 14) (w64 - 1)) else v2
  let vf := blakeSigma12.foldl (blakeRound m) v3
  (List.range 8).map (fun i => Nat.xor (lget h i) (Nat.xor (lget vf i) (lget vf (i + 8))))

/-- Sequential compression of the message, recursing on the number of
non-final 128-byte blocks still to process: each non-final block advances
the byte counter by 128, the final block is zero-padded and flagged final
with the total length as counter; the empty message is a single all-zero
final block with counter 0. -/
def blakeBlocksAux (h : List Nat) (bs : List Nat) (processed : Nat) :
    Nat → List Nat
  | 0 =>
    blakeCompress h (bytesToWords (bs ++ List.replicate (128 - bs.length) 0))
      (processed + bs.length) true
  | n + 1 =>
    blakeBlocksAux (blakeCompress h (bytesToWords (bs.take 128)) (processed + 128) false)
      (bs.drop 128) (processed + 128) n

/-- Block-sequencing of RFC 7693 section 3.3: a message of `ll` bytes has
`max 1 (ceil (ll / 128))` blocks, of which all but the last are non-final;
`(ll - 1) / 128` counts the non-final ones. -/
def blakeBlocks (h : List Nat) (bs : List Nat) (processed : Nat) : List Nat :=
  blakeBlocksAux h bs processed ((bs.length - 1) / 128)

/-- Model of `hashlib.blake2b(msg, digest_size=8).digest()`: parameter-block
word `0x01010008` (depth 1, fanout 1, key length 0, digest length 8) mixed
into h0, then the first 8 bytes of the little-endian state serialization. -/
def blake2b8 (msg : List Nat) : List Nat :=
  let h0 := blakeIV.set 0 (Nat.xor (lget blakeIV 0) 0x01010008)
  let hf := blakeBlocks h0 msg 0
  ((hf.map le8).flatten).take 8

/-! ### Feature hashing and accumulation — `embed_text` lines 33-36 of
`main.py` (identical loop at `import_articles.py` lines 35-38). -/

/-- Slot index of one token:
`int.from_bytes(blake2b(t.encode("utf-8"), digest_size=8).digest(), "little") % dim`. -/
def slotIndex (t : String) (dim : Nat) : Nat :=
  leNat (blake2b8 (utf8Bytes t)) % dim

/-- Model of `vec[idx] += 1.0`: the accumulated counts are small naturals,
exactly representable in float32. -/
def bumpSlot (v : List Nat) (i : Nat) : List Nat := v.set i (v.getD i 0 + 1)

/-- The accumulation loop of both `embed_text` copies:
`vec = np.zeros(dim)`, then `for t in tokens: vec[slotIndex t dim] += 1.0`. -/
def hashAccum (tokens : List String) (dim : Nat) : List Nat :=
  tokens.foldl (fun vec t => bumpSlot vec (slotIndex t dim)) (List.replicate dim 0)

/-- Squared Euclidean norm of the count vector, exact over the naturals. -/
def normSq (v : List Nat) : Nat := (v.map (· ^ 2)).sum

/-! ### Normalization and the two embedding functions -/

/-- Default `EMBEDDING_DIM` (env default `"384"`, `main.py` line 18 and
`import_articles.py` line 13). -/
def EMBEDDING_DIM : Nat := 384

open Classical in
/-- Shared tail of both `embed_text` copies (`main.py` lines 37-40,
`import_articles.py` lines 39-42): `norm = float(np.linalg.norm(vec))`;
`if norm > 0: vec /= norm`; `return vec.tolist()`. Real-valued idealization
of the float32 arithmetic. -/
noncomputable def normalizeVec (counts : List Nat) : List ℝ :=
  let nrm : ℝ := Real.sqrt ((normSq counts : Nat) : ℝ)
  if 0 < nrm then counts.map (fun (c : Nat) => (c : ℝ) / nrm)
  else counts.map (fun (c : Nat) => (c : ℝ))

/-- Model of `embed_text` in `main.py` (lines 30-40). The argument is
`Option String` because line 31 guards a possibly-`None` input with
`(text or "")`. -/
noncomputable def embed_text_main (text : Option String) (dim : Nat := EMBEDDING_DIM) :
    List ℝ :=
  let tokens := tokenize (pyStrOr text ("" : String))
  normalizeVec (hashAccum tokens dim)

/-- Model of `embed_text` in `import_articles.py` (lines 32-42); its body is
the same loop but line 33 applies `.lower()` to `text` directly, with no
`None` guard. -/
noncomputable def embed_text_script (text : String) (dim : Nat := EMBEDDING_DIM) :
    List ℝ :=
  let tokens := tokenize text
  normalizeVec (hashAccum tokens dim)

/-- Python dynamic errors surfaced by the modelled code paths. -/
inductive PyErr where
  | attributeError
  | keyError
  | valueError
  | typeError
deriving DecidableEq, Repr

/-- Python call semantics of the script copy of `embed_text` on a possibly-
`None` argument: its line 33 is `text.lower()`, so a `None` argument raises
`AttributeError` before any other work; a string argument never raises. -/
noncomputable def embed_text_script_call (text : Option String) (dim : Nat := EMBEDDING_DIM) :
    Except PyErr (List ℝ) :=
  match text with
  | none => Except.error PyErr.attributeError
  | some s => Except.ok (embed_text_script s dim)

/-- Euclidean norm of a real vector. -/
noncomputable def l2norm (v : List ℝ) : ℝ := Real.sqrt ((v.map (· ^ 2)).sum)

/-! ### Timestamp parsing — `parse_ts` (`main.py` lines 43-49) and
`_parse_ts` (`import_articles.py` lines 24-30); the two bodies are
identical. -/

/-- Naive or offset-aware datetime as produced by
`datetime.fromisoformat`. -/
structure PyDateTime where
  year : Nat
  month : Nat
  day : Nat
  hour : Nat
  minute : Nat
  second : Nat
  tzOffsetMinutes : Option Int
deriving DecidableEq

/-- Numeric value of an ASCII digit, `none` otherwise. -/
def digitVal (c : Char) : Option Nat :=
  if ('0' ≤ c && c ≤ '9') then some (c.toNat - 48) else none

/-- Read exactly `k` ASCII digits from the front of `cs`, returning their
decimal value and the rest. -/
def fixedNat (cs : List Char) (k : Nat) : Option (Nat × List Char) :=
  let pre := cs.take k
  if pre.length = k ∧ pre.all (fun c => ('0' ≤ c && c ≤ '9')) then
    some (pre.foldl (fun n c => 10 * n + (c.toNat - 48)) 0, cs.drop k)
  else none

/-- Consume one expected character. -/
def expectChar (cs : List Char) (c : Char) : Option (List Char) :=
  match cs with
  | [] => none
  | d :: rest => if d = c then some rest else none

/-- Gregorian leap-year rule. -/
def isLeap (y : Nat) : Bool := (y % 4 == 0 && y % 100 != 0) || y % 400 == 0

/-- Days in a month, as `datetime` validates them. -/
def daysInMonth (y m : Nat) : Nat :=
  if m = 2 then (if isLeap y then 29 else 28)
  else if m = 4 ∨ m = 6 ∨ m = 9 ∨ m = 11 then 30
  else 31

/-- Trailing UTC-offset parser: empty input means naive, otherwise exactly
`+HH:MM` or `-HH:MM`. -/
def parseOffset : List Char → Option (Option Int)
  | [] => some none
  | c :: rest =>
    if c = '+' ∨ c = '-' then
      match fixedNat rest 2 with
      | none => none
      | some (hh, rest2) =>
        match expectChar rest2 ':' with
        | none => none
        | some rest3 =>
          match fixedNat rest3 2 with
          | none => none
          | some (mm, rest4) =>
            if rest4 = [] ∧ hh ≤ 23 ∧ mm ≤ 59 then
              some (some (if c = '-' then -(60 * hh + mm : Int) else (60 * hh + mm : Int)))
            else none
    else none

/-- Model of `datetime.fromisoformat` on the core grammar
`YYYY-MM-DD[(T| )HH:MM:SS[±HH:MM]]` with calendar validation; inputs
outside the grammar yield `none` (the library call raises `ValueError`,
which the caller catches). -/
def fromisoformat (s : String) : Option PyDateTime := do
  let cs := s.toList
  let (y, r1) ← fixedNat cs 4
  let r2 ← expectChar r1 '-'
  let (mo, r3) ← fixedNat r2 2
  let r4 ← expectChar r3 '-'
  let (d, r5) ← fixedNat r4 2
  if 1 ≤ mo ∧ mo ≤ 12 ∧ 1 ≤ d ∧ d ≤ daysInMonth y mo then
    match r5 with
    | [] => some (PyDateTime.mk y mo d 0 0 0 none)
    | sep :: r6 =>
      if sep = 'T' ∨ sep = ' ' then do
        let (hh, r7) ← fixedNat r6 2
        let r8 ← expectChar r7 ':'
        let (mi, r9) ← fixedNat r8 2
        let r10 ← expectChar r9 ':'
        let (ss, r11) ← fixedNat r10 2
        if hh ≤ 23 ∧ mi ≤ 59 ∧ ss ≤ 59 then do
          let off ← parseOffset r11
          some (PyDateTime.mk y mo d hh mi ss off)
        else none
      else none
  else none

/-- Model of `s.replace("Z", "+00:00")`. -/
def pyReplaceZ (s : String) : String :=
  String.mk ((s.toList.map
    (fun c => if c = 'Z' then ("+00:00").toList else [c])).flatten)

/-- Model of `parse_ts` / `_parse_ts`: `None` and the empty string are falsy
and yield `None`; otherwise `fromisoformat(s.replace("Z", "+00:00"))` with
every exception caught and turned into `None`. -/
def parse_ts (s : Option String) : Option PyDateTime :=
  match s with
  | none => none
  | some str =>
    if str = ("" : String) then none else fromisoformat (pyReplaceZ str)

/-- Zero-padded fixed-width decimal rendering. -/
def padNat (width n : Nat) : String :=
  let digits := toString n
  String.mk (List.replicate (width - digits.length) '0') ++ digits

/-- Model of `datetime.isoformat` for the modelled fields. -/
def pyIsoformat (dt : PyDateTime) : String :=
  let base := padNat 4 dt.year ++ ("-") ++ padNat 2 dt.month ++ ("-") ++
    padNat 2 dt.day ++ ("T") ++ padNat 2 dt.hour ++ (":") ++
    padNat 2 dt.minute ++ (":") ++ padNat 2 dt.second
  match dt.tzOffsetMinutes with
  | none => base
  | some off =>
    let sign := if off < 0 then ("-") else ("+")
    let a := off.natAbs
    base ++ sign ++ padNat 2 (a / 60) ++ (":") ++ padNat 2 (a % 60)

/-! ### Similarity ranker — `semantic_search` (`main.py` lines 133-180).

The pgvector distance operator `<=>` is external library code; it enters the
model as an explicit function parameter `dop`, so every theorem below holds
for whatever distance the storage engine computes. The SQL clauses
`WHERE embedding IS NOT NULL AND (embedding <=> q) <= max_distance ORDER BY
distance LIMIT limit` are modelled by filterMap, filter, stable sort and
take, in that order. -/

/-- Response shape of `ArticleOut` (`main.py` lines 82-88). -/
structure ArticleOut where
  id : Int
  title : String
  content : String
  author : Option String
  category : Option String
  published_at : Option String

/-- One stored `articles` row as the search query projects it. -/
structure StoredRow where
  id : Int
  title : String
  content : String
  author : Option String
  category : Option String
  published_at : Option PyDateTime
  embedding : Option (List ℝ)

/-- Search response item (`main.py` lines 90-93). -/
structure SearchHit where
  score : ℝ
  distance : ℝ
  article : ArticleOut

/-- Row-to-response projection used by every endpoint:
`published_at.isoformat() if present else None`. -/
def articleOutOfRow (r : StoredRow) : ArticleOut :=
  ArticleOut.mk r.id r.title r.content r.author r.category
    (r.published_at.map pyIsoformat)

/-- Score derivation of `main.py` line 163: `score = 1.0 / (1.0 + distance)`. -/
noncomputable def score_of (distance : ℝ) : ℝ := 1 / (1 + distance)

open Classical in
/-- SQL semantics of the search query (`main.py` lines 145-157): keep rows
with a non-null embedding, compute each distance with the store operator,
filter to `distance ≤ maxd`, sort ascending by distance, truncate to
`limit`. -/
noncomputable def sqlSearchRows (table : List StoredRow)
    (dop : List ℝ → List ℝ → ℝ) (qvec : List ℝ) (maxd : ℝ) (limit : Nat) :
    List (StoredRow × ℝ) :=
  let nonNull := table.filterMap (fun r => r.embedding.map (fun e => (r, dop qvec e)))
  let filtered := nonNull.filter (fun rd => decide (rd.2 ≤ maxd))
  let sorted := filtered.mergeSort (fun a b => decide (a.2 ≤ b.2))
  sorted.take limit

/-- Model of `semantic_search` (`main.py` lines 133-180): embed the query
with the HTTP-layer `embed_text` at the default dimension (line 140), run
the SQL, and package each row into a `SearchHit` with
`score = 1.0 / (1.0 + distance)` (lines 160-178). -/
noncomputable def semantic_search (table : List StoredRow)
    (dop : List ℝ → List ℝ → ℝ) (q : String) (limit : Nat) (maxd : ℝ) :
    List SearchHit :=
  let qvec := embed_text_main (some q)
  (sqlSearchRows table dop qvec maxd limit).map
    (fun rd => SearchHit.mk (score_of rd.2) rd.2 (articleOutOfRow rd.1))

/-! ### Bulk ingestion — `main` of `import_articles.py` (lines 44-108). -/

/-- One CSV record as `csv.DictReader` presents it: every field is a string
when the column is present; `none` stands for an absent column (or the
`None` a short row produces). -/
structure CsvRow where
  id : Option String
  title : Option String
  content : Option String
  author : Option String
  category : Option String
  published_at : Option String
deriving DecidableEq

/-- One pending insert tuple
`(article_id, title, content, author, category, published_at, emb)`
(`import_articles.py` line 80). -/
structure Article where
  id : Int
  title : String
  content : String
  author : Option String
  category : Option String
  published_at : Option PyDateTime
  embedding : List ℝ

/-- Model of `int(s)` on a string: optional surrounding ASCII whitespace, an
optional sign, then one or more ASCII digits (Python additionally accepts
underscore digit grouping and non-ASCII digits; the model covers the ASCII
core). -/
def pyIntParse (s : String) : Option Int :=
  let isWs := fun (c : Char) => (c = ' ' ∨ c = '\t' ∨ c = '\n' ∨ c = '\r')
  let cs := ((s.toList.dropWhile isWs).reverse.dropWhile isWs).reverse
  let core := fun (ds : List Char) =>
    if ds ≠ [] ∧ ds.all (fun c => ('0' ≤ c && c ≤ '9')) then
      some (ds.foldl (fun (n : Nat) c => 10 * n + (c.toNat - 48)) 0)
    else none
  match cs with
  | '+' :: ds => (core ds).map (fun n => (n : Int))
  | '-' :: ds => (core ds).map (fun n => -(n : Int))
  | ds => (core ds).map (fun n => (n : Int))

/-- Python semantics of `int(row["id"])` (`import_articles.py` line 70): an
absent `id` column raises `KeyError`, a non-numeric value raises
`ValueError`; both abort the run. -/
def intOfRowId (x : Option String) : Except PyErr Int :=
  match x with
  | none => Except.error PyErr.keyError
  | some s =>
    match pyIntParse s with
    | some n => Except.ok n
    | none => Except.error PyErr.valueError

/-- Per-record body of the reader loop (`import_articles.py` lines 70-80):
parse the id (fatal on failure), default the text fields, tolerate an
unparseable timestamp as `None`, embed `title + "\n" + content` with the
script copy of `embed_text`, and build the insert tuple. -/
noncomputable def processRow (r : CsvRow) : Except PyErr Article :=
  match intOfRowId r.id with
  | Except.error e => Except.error e
  | Except.ok article_id =>
    let title := pyStrOr r.title ("" : String)
    let content := pyStrOr r.content ("" : String)
    let published_at := parse_ts r.published_at
    let text := title ++ ("\n") ++ content
    let emb := embed_text_script text
    Except.ok (Article.mk article_id title content r.author r.category published_at emb)

/-- Observable outcome of one ingestion run: the rows committed by bulk
inserts and the number of bulk-insert commits, with `skipped` for the
idempotency guard and `aborted` when a record raised (the batch in flight is
rolled back, committed batches stay). -/
inductive IngestOutcome where
  | skipped
  | done (inserted : List Article) (commits : Nat)
  | aborted (inserted : List Article) (commits : Nat) (e : PyErr)

/-- Rows committed by the run. -/
def IngestOutcome.inserted : IngestOutcome → List Article
  | IngestOutcome.skipped => []
  | IngestOutcome.done s _ => s
  | IngestOutcome.aborted s _ _ => s

/-- Bulk-insert commits performed by the run. -/
def IngestOutcome.commits : IngestOutcome → Nat
  | IngestOutcome.skipped => 0
  | IngestOutcome.done _ c => c
  | IngestOutcome.aborted _ c _ => c

/-- The fixed batch size of `import_articles.py` line 65. -/
def BATCH_SIZE : Nat := 500

/-- The reader loop of `main` (`import_articles.py` lines 69-103): process
records one at a time; flush the batch as one committed bulk insert whenever
it reaches `B` rows (lines 82-92); after the stream ends flush any non-empty
partial batch (lines 94-103); a record whose processing raises aborts the
run, keeping only the batches already committed. -/
noncomputable def seedLoop (B : Nat) :
    List CsvRow → List Article → Nat → List Article → IngestOutcome
  | [], store, commits, batch =>
    if batch.isEmpty then IngestOutcome.done store commits
    else IngestOutcome.done (store ++ batch) (commits + 1)
  | r :: rs, store, commits, batch =>
    match processRow r with
    | Except.error e => IngestOutcome.aborted store commits e
    | Except.ok a =>
      let batch2 := batch ++ [a]
      if B ≤ batch2.length then seedLoop B rs (store ++ batch2) (commits + 1) []
      else seedLoop B rs store commits batch2

/-- Model of `main` from the row-count guard down (`import_articles.py`
lines 58-103): `count` is the current `SELECT COUNT(*)` of the store; a
nonzero count skips the run entirely (lines 60-62), otherwise the reader
loop runs over the record stream with batch size `B`. -/
noncomputable def ingest (count : Nat) (records : List CsvRow)
    (B : Nat := BATCH_SIZE) : IngestOutcome :=
  if 0 < count then IngestOutcome.skipped
  else seedLoop B records [] 0 []

/-- Articles produced by the records whose processing succeeds. -/
noncomputable def okArticles (rs : List CsvRow) : List Article :=
  rs.filterMap (fun r => (processRow r).toOption)

/-! ### Helper lemmas -/

theorem pyStrOr_some (s : String) : pyStrOr (some s) ("" : String) = s := by
  unfold pyStrOr
  by_cases h : s = ("" : String)
  · simp [h]
  · simp [h]

theorem bumpSlot_length (v : List Nat) (i : Nat) :
    (bumpSlot v i).length = v.length := by
  simp [bumpSlot]

theorem bumpSlot_getD (v : List Nat) (i j : Nat) (hj : j < v.length) :
    (bumpSlot v j).getD i 0 =
      if i = j then v.getD i 0 + 1 else v.getD i 0 := by
  simp only [bumpSlot, List.getD_eq_getElem?_getD, List.getElem?_set]
  by_cases h : i = j
  · subst h
    simp [hj, List.getElem?_eq_getElem hj]
  · rw [if_neg (fun hh => h hh.symm), if_neg h]

theorem foldl_bump_length (ts : List String) (dim : Nat) :
    ∀ v : List Nat,
      (ts.foldl (fun vec t => bumpSlot vec (slotIndex t dim)) v).length = v.length := by
  induction ts with
  | nil => intro v; rfl
  | cons t ts ih =>
    intro v
    simpa [List.foldl_cons, bumpSlot_length] using ih (bumpSlot v (slotIndex t dim))

theorem hashAccum_length (ts : List String) (dim : Nat) :
    (hashAccum ts dim).length = dim := by
  simpa using foldl_bump_length ts dim (List.replicate dim 0)

theorem slotIndex_lt (t : String) (dim : Nat) (h : 0 < dim) :
    slotIndex t dim < dim :=
  Nat.mod_lt _ h

theorem foldl_bump_count (dim i : Nat) (hi : i < dim) (ts : List String) :
    ∀ v : List Nat, v.length = dim →
      (ts.foldl (fun vec t => bumpSlot vec (slotIndex t dim)) v).getD i 0 =
        v.getD i 0 + (ts.filter (fun t => slotIndex t dim == i)).length := by
  induction ts with
  | nil => intro v _; simp
  | cons t ts ih =>
    intro v hv
    have hslot : slotIndex t dim < v.length := by
      rw [hv]; exact slotIndex_lt t dim (lt_of_le_of_lt (Nat.zero_le i) hi)
    simp only [List.foldl_cons]
    rw [ih (bumpSlot v (slotIndex t dim)) (by rw [bumpSlot_length, hv])]
    rw [bumpSlot_getD v i (slotIndex t dim) hslot]
    rw [List.filter_cons]
    by_cases h : slotIndex t dim = i
    · simp [h, List.length_cons]
      omega
    · have : ¬ i = slotIndex t dim := fun hh => h hh.symm
      simp [this, beq_eq_false_iff_ne.mpr h]

theorem hashAccum_count (ts : List String) (dim i : Nat) (hi : i < dim) :
    (hashAccum ts dim).getD i 0 =
      (ts.filter (fun t => slotIndex t dim == i)).length := by
  unfold hashAccum
  rw [foldl_bump_count dim i hi ts (List.replicate dim 0) (by simp)]
  simp

theorem normSq_pos_of_entry (v : List Nat) (i : Nat) (hi : i < v.length)
    (hpos : 0 < v.getD i 0) : 0 < normSq v := by
  have hmem : v.getD i 0 ∈ v := by
    rw [List.getD_eq_getElem v 0 hi]
    exact List.getElem_mem hi
  have hsq : (v.getD i 0) ^ 2 ∈ v.map (· ^ 2) := List.mem_map_of_mem _ hmem
  have hle := List.single_le_sum (l := v.map (· ^ 2)) (fun x _ => Nat.zero_le x) _ hsq
  have hp : 0 < (v.getD i 0) ^ 2 := by positivity
  exact Nat.lt_of_lt_of_le hp hle

theorem normSq_hashAccum_pos (t0 : String) (rest : List String) (dim : Nat)
    (hdim : 0 < dim) : 0 < normSq (hashAccum (t0 :: rest) dim) := by
  have hslot := slotIndex_lt t0 dim hdim
  apply normSq_pos_of_entry _ (slotIndex t0 dim)
    (by rw [hashAccum_length]; exact hslot)
  rw [hashAccum_count _ _ _ hslot]
  rw [List.filter_cons]
  simp

theorem normalizeVec_of_normSq_zero (v : List Nat) (h : normSq v = 0) :
    normalizeVec v = v.map (fun (c : Nat) => (c : ℝ)) := by
  unfold normalizeVec
  rw [h]
  norm_num

theorem normalizeVec_of_normSq_pos (v : List Nat) (h : 0 < normSq v) :
    normalizeVec v =
      v.map (fun (c : Nat) => (c : ℝ) / Real.sqrt ((normSq v : Nat) : ℝ)) := by
  unfold normalizeVec
  have hS : (0 : ℝ) < ((normSq v : Nat) : ℝ) := by exact_mod_cast h
  rw [if_pos (Real.sqrt_pos.2 hS)]

theorem sum_map_cast_sq (v : List Nat) :
    (v.map (fun (c : Nat) => (c : ℝ) ^ 2)).sum = ((normSq v : Nat) : ℝ) := by
  unfold normSq
  rw [Nat.cast_list_sum, List.map_map]
  have hfun : (Nat.cast ∘ fun (x : Nat) => x ^ 2) = fun (c : Nat) => (c : ℝ) ^ 2 := by
    funext x
    simp [Function.comp]
  rw [hfun]

theorem l2norm_normalizeVec (v : List Nat) (h : 0 < normSq v) :
    l2norm (normalizeVec v) = 1 := by
  have hS : (0 : ℝ) < ((normSq v : Nat) : ℝ) := by exact_mod_cast h
  rw [normalizeVec_of_normSq_pos v h]
  unfold l2norm
  rw [List.map_map]
  have hcomp : ((· ^ 2) ∘ fun (c : Nat) => (c : ℝ) / Real.sqrt ((normSq v : Nat) : ℝ)) =
      fun (c : Nat) => (c : ℝ) ^ 2 * ((Real.sqrt ((normSq v : Nat) : ℝ)) ^ 2)⁻¹ := by
    funext c
    simp only [Function.comp]
    rw [div_eq_mul_inv, mul_pow, inv_pow]
  rw [hcomp, List.sum_map_mul_right, sum_map_cast_sq, Real.sq_sqrt hS.le,
    mul_inv_cancel₀ hS.ne.symm]
  exact Real.sqrt_one

theorem blakeCompress_length (h m : List Nat) (t : Nat) (last : Bool) :
    (blakeCompress h m t last).length = 8 := by
  simp [blakeCompress]

theorem blakeBlocksAux_length (n : Nat) :
    ∀ (h bs : List Nat) (p : Nat), (blakeBlocksAux h bs p n).length = 8 := by
  induction n with
  | zero => intro h bs p; exact blakeCompress_length ..
  | succ n ih => intro h bs p; exact ih ..

theorem blake2b8_length (msg : List Nat) : (blake2b8 msg).length = 8 := by
  unfold blake2b8 blakeBlocks
  rw [List.length_take, List.length_flatten, List.map_map]
  have hlen : (fun x => (le8 x).length) = Function.const Nat 8 := by
    funext x
    simp [le8, Function.const]
  have : (List.length ∘ le8) = Function.const Nat 8 := hlen
  rw [this, List.map_const, List.sum_replicate, blakeBlocksAux_length]
  simp

theorem blake2b8_bytes_lt (msg : List Nat) :
    ∀ b ∈ blake2b8 msg, b < 256 := by
  intro b hb
  unfold blake2b8 at hb
  have hb2 := (List.take_sublist _ _).subset hb
  rw [List.mem_flatten] at hb2
  obtain ⟨l, hl, hbl⟩ := hb2
  rw [List.mem_map] at hl
  obtain ⟨x, _, hx⟩ := hl
  subst hx
  simp only [le8, List.mem_map] at hbl
  obtain ⟨i, _, hib⟩ := hbl
  subst hib
  exact Nat.mod_lt _ (by norm_num)

theorem hashAccum_append_singleton (ts : List String) (t : String) (dim : Nat) :
    hashAccum (ts ++ [t]) dim = bumpSlot (hashAccum ts dim) (slotIndex t dim) := by
  unfold hashAccum
  rw [List.foldl_append]
  rfl

theorem processRow_isOk (r : CsvRow) :
    (processRow r).isOk = (intOfRowId r.id).isOk := by
  unfold processRow
  cases h : intOfRowId r.id <;> rfl

theorem processRow_ok_of_id (r : CsvRow) (aid : Int)
    (h : intOfRowId r.id = Except.ok aid) :
    processRow r =
      Except.ok (Article.mk aid (pyStrOr r.title ("" : String))
        (pyStrOr r.content ("" : String)) r.author r.category
        (parse_ts r.published_at)
        (embed_text_script (pyStrOr r.title ("" : String) ++ ("\n") ++
          pyStrOr r.content ("" : String)))) := by
  unfold processRow
  rw [h]

theorem okArticles_cons_ok (r : CsvRow) (rs : List CsvRow) (a : Article)
    (h : processRow r = Except.ok a) :
    okArticles (r :: rs) = a :: okArticles rs := by
  unfold okArticles
  rw [List.filterMap_cons, h]
  rfl

theorem okArticles_length (rs : List CsvRow)
    (h : ∀ r ∈ rs, (processRow r).isOk = true) :
    (okArticles rs).length = rs.length := by
  induction rs with
  | nil => rfl
  | cons r rs ih =>
    have hr := h r (List.mem_cons_self ..)
    cases hp : processRow r with
    | error e => rw [hp] at hr; exact absurd hr (by simp [Except.isOk, Except.toBool])
    | ok a =>
      rw [okArticles_cons_ok r rs a hp]
      simp only [List.length_cons]
      rw [ih (fun g hg => h g (List.mem_cons_of_mem _ hg))]

theorem seedLoop_processed (B : Nat) (hB : 0 < B) :
    ∀ (rs tail : List CsvRow) (store batch : List Article) (commits : Nat),
      batch.length < B → (∀ g ∈ rs, (processRow g).isOk = true) →
      seedLoop B (rs ++ tail) store commits batch =
        seedLoop B tail
          (store ++ (batch ++ okArticles rs).take
            (B * ((batch ++ okArticles rs).length / B)))
          (commits + (batch ++ okArticles rs).length / B)
          ((batch ++ okArticles rs).drop
            (B * ((batch ++ okArticles rs).length / B))) := by
  intro rs
  induction rs with
  | nil =>
    intro tail store batch commits hlt _
    have hOk0 : okArticles ([] : List CsvRow) = [] := rfl
    rw [List.nil_append, hOk0, List.append_nil, Nat.div_eq_of_lt hlt]
    simp
  | cons g gs ih =>
    intro tail store batch commits hlt hok
    have hg := hok g (List.mem_cons_self ..)
    cases hp : processRow g with
    | error e =>
      rw [hp] at hg
      exact absurd hg (by simp [Except.isOk, Except.toBool])
    | ok a =>
      have hoks : ∀ x ∈ gs, (processRow x).isOk = true :=
        fun x hx => hok x (List.mem_cons_of_mem _ hx)
      have hOkCons : okArticles (g :: gs) = a :: okArticles gs :=
        okArticles_cons_ok g gs a hp
      have hassoc : batch ++ a :: okArticles gs = (batch ++ [a]) ++ okArticles gs := by
        simp
      rw [List.cons_append, seedLoop, hp, hOkCons, hassoc]
      dsimp only
      by_cases hfull : B ≤ (batch ++ [a]).length
      · rw [if_pos hfull]
        have hlen : (batch ++ [a]).length = B := by
          simp only [List.length_append, List.length_cons, List.length_nil] at hfull ⊢
          omega
        rw [ih tail (store ++ (batch ++ [a])) [] (commits + 1) (by simpa using hB) hoks]
        rw [List.nil_append]
        have hdiv : ((batch ++ [a]) ++ okArticles gs).length / B =
            (okArticles gs).length / B + 1 := by
          rw [List.length_append, hlen, Nat.add_comm, Nat.add_div_right _ hB]
        rw [hdiv]
        have hmul : B * ((okArticles gs).length / B + 1) =
            (batch ++ [a]).length + B * ((okArticles gs).length / B) := by
          rw [hlen]
          ring
        rw [hmul, List.take_append, List.drop_append]
        have hc : commits + ((okArticles gs).length / B + 1) =
            commits + 1 + (okArticles gs).length / B := by omega
        rw [hc]
        simp [List.append_assoc]
      · rw [if_neg hfull]
        have hlt2 : (batch ++ [a]).length < B := Nat.lt_of_not_le hfull
        rw [ih tail store (batch ++ [a]) commits hlt2 hoks]

theorem ceil_div_split (n B : Nat) (hB : 0 < B) :
    (n + B - 1) / B = n / B + (if n % B = 0 then 0 else 1) := by
  have hn := Nat.div_add_mod n B
  by_cases h : n % B = 0
  · rw [if_pos h]
    have hlt : B - 1 < B := by omega
    have hsum : n + B - 1 = B * (n / B) + (B - 1) := by omega
    rw [hsum, Nat.mul_add_div hB, Nat.div_eq_of_lt hlt]
  · rw [if_neg h]
    have hr : 0 < n % B := Nat.pos_of_ne_zero h
    have hrB : n % B < B := Nat.mod_lt _ hB
    have hlt : n % B - 1 < B := by omega
    have hsum : n + B - 1 = B * (n / B + 1) + (n % B - 1) := by
      rw [Nat.mul_add, Nat.mul_one]
      omega
    rw [hsum, Nat.mul_add_div hB, Nat.div_eq_of_lt hlt]

theorem embed_text_main_eq (s : String) (dim : Nat) :
    embed_text_main (some s) dim = normalizeVec (hashAccum (tokenize s) dim) := by
  unfold embed_text_main
  rw [pyStrOr_some]

theorem normSq_replicate_zero (dim : Nat) : normSq (List.replicate dim 0) = 0 := by
  unfold normSq
  rw [List.map_replicate]
  simp

theorem normalizeVec_replicate_zero (dim : Nat) :
    normalizeVec (List.replicate dim 0) = List.replicate dim (0 : ℝ) := by
  rw [normalizeVec_of_normSq_zero _ (normSq_replicate_zero dim), List.map_replicate]
  simp

/-! ### Claim theorems -/

/-- C1: for every text `t` and every fixed `dim`, `embed(t, dim)` is
deterministic and pure — the model of `embed_text` is a function of its two
arguments alone (no state, clock, locale or randomness enters the shallow
embedding), so two calls on equal text and equal dim, in particular two
documents with identical text, return the same vector. -/
theorem embedding_deterministic (t1 t2 : Option String) (dim : Nat)
    (h : t1 = t2) :
    embed_text_main t1 dim = embed_text_main t2 dim := by
  rw [h]

theorem embedding_deterministic_witness :
    some ("rust systems programming") = some ("rust systems programming") ∧
    embed_text_main (some ("rust systems programming")) 384 =
      embed_text_main (some ("rust systems programming")) 384 :=
  ⟨rfl, embedding_deterministic _ _ 384 rfl⟩

/-- C2: a text with a non-empty tokenization embeds to a vector of Euclidean
norm 1 (exactly, in the real-valued idealization of the float32 arithmetic);
a text with an empty tokenization embeds to the all-zero vector of length
`dim` unchanged. -/
theorem embedding_normalization (t : String) (dim : Nat) (hdim : 0 < dim) :
    (tokenize t ≠ [] → l2norm (embed_text_main (some t) dim) = 1) ∧
    (tokenize t = [] →
      embed_text_main (some t) dim = List.replicate dim (0 : ℝ)) := by
  constructor
  · intro hne
    rw [embed_text_main_eq]
    obtain ⟨t0, rest, hts⟩ := List.exists_cons_of_ne_nil hne
    rw [hts]
    exact l2norm_normalizeVec _ (normSq_hashAccum_pos t0 rest dim hdim)
  · intro hnil
    rw [embed_text_main_eq, hnil]
    have h0 : hashAccum [] dim = List.replicate dim 0 := rfl
    rw [h0]
    exact normalizeVec_replicate_zero dim

theorem embedding_normalization_witness :
    (0 < 384 ∧ tokenize ("hello") ≠ [] ∧
      l2norm (embed_text_main (some ("hello")) 384) = 1) ∧
    (tokenize ("!?") = [] ∧
      embed_text_main (some ("!?")) 384 = List.replicate 384 (0 : ℝ)) :=
  ⟨⟨by decide, by decide,
      (embedding_normalization ("hello") 384 (by decide)).1 (by decide)⟩,
    ⟨by decide, (embedding_normalization ("!?") 384 (by decide)).2 (by decide)⟩⟩

/-- C3: the feature hasher takes, per token, the fixed 8-byte (64-bit)
BLAKE2b digest of the token's UTF-8 bytes, reads it as a little-endian
unsigned integer, reduces it modulo `dim` to the slot index, and adds
exactly one to that slot; distinct tokens landing in one slot simply
accumulate — the final count in slot `i` is the number of tokens hashing
to `i`. -/
theorem feature_hasher_correct :
    (∀ bs : List Nat, (blake2b8 bs).length = 8) ∧
    (∀ bs : List Nat, ∀ b ∈ blake2b8 bs, b < 256) ∧
    (∀ (t : String) (dim : Nat),
        slotIndex t dim = leNat (blake2b8 (utf8Bytes t)) % dim) ∧
    (∀ (ts : List String) (t : String) (dim : Nat),
        hashAccum (ts ++ [t]) dim =
          bumpSlot (hashAccum ts dim) (slotIndex t dim)) ∧
    (∀ (ts : List String) (dim i : Nat), i < dim →
        (hashAccum ts dim).getD i 0 =
          (ts.filter (fun t => slotIndex t dim == i)).length) :=
  ⟨blake2b8_length, blake2b8_bytes_lt, fun _ _ => rfl,
    hashAccum_append_singleton, hashAccum_count⟩

set_option maxRecDepth 100000 in
theorem feature_hasher_correct_witness :
    ((64 : Nat) ∈ blake2b8 (utf8Bytes ("a")) ∧ (64 : Nat) < 256) ∧
    (3 < 384 ∧ (hashAccum (["rust"]) 384).getD 3 0 =
      ((["rust"]).filter (fun t => slotIndex t 384 == 3)).length) :=
  ⟨⟨by decide, feature_hasher_correct.2.1 (utf8Bytes ("a")) 64 (by decide)⟩,
    ⟨by decide, feature_hasher_correct.2.2.2.2 (["rust"]) 384 3 (by decide)⟩⟩

/-- C5: ingestion is idempotent at whole-store granularity — a nonzero row
count at the start of the run makes `ingest` terminate immediately as
`skipped`, committing no rows and performing no bulk-insert commits, so a
second run over an already-populated store inserts nothing. -/
theorem ingest_idempotent_guard (count : Nat) (records : List CsvRow)
    (B : Nat) (h : 0 < count) :
    ingest count records B = IngestOutcome.skipped ∧
      (ingest count records B).inserted = [] ∧
      (ingest count records B).commits = 0 := by
  unfold ingest
  rw [if_pos h]
  exact ⟨rfl, rfl, rfl⟩

theorem ingest_idempotent_guard_witness :
    0 < 1 ∧ ingest 1 [] 500 = IngestOutcome.skipped ∧
      (ingest 1 [] 500).inserted = [] ∧ (ingest 1 [] 500).commits = 0 :=
  ⟨Nat.one_pos, ingest_idempotent_guard 1 [] 500 Nat.one_pos⟩

/-- C6: ingesting a stream of `N` well-formed records into an empty store
with batch size `B` flushes a full batch at every `B` records and the
remaining partial batch at end of input, for exactly `ceil (N / B)`
bulk-insert commits, and the store ends with exactly `N` rows. -/
theorem ingest_batch_correct (records : List CsvRow) (B : Nat) (hB : 0 < B)
    (hok : ∀ r ∈ records, (processRow r).isOk = true) :
    ∃ inserted : List Article,
      ingest 0 records B =
        IngestOutcome.done inserted ((records.length + B - 1) / B) ∧
      inserted.length = records.length := by
  unfold ingest
  rw [if_neg (lt_irrefl 0)]
  have h := seedLoop_processed B hB records [] [] [] 0 (by simpa using hB) hok
  simp only [List.append_nil, List.nil_append, Nat.zero_add] at h
  rw [h]
  have hAlen : (okArticles records).length = records.length :=
    okArticles_length records hok
  have hmod := Nat.div_add_mod (okArticles records).length B
  have hdroplen :
      ((okArticles records).drop
        (B * ((okArticles records).length / B))).length =
      (okArticles records).length % B := by
    rw [List.length_drop]
    omega
  rw [ceil_div_split records.length B hB, ← hAlen]
  by_cases hz : (okArticles records).length % B = 0
  · have hnil : (okArticles records).drop
        (B * ((okArticles records).length / B)) = [] :=
      List.eq_nil_of_length_eq_zero (by rw [hdroplen, hz])
    have htake : (okArticles records).take
        (B * ((okArticles records).length / B)) = okArticles records :=
      List.take_of_length_le (by omega)
    rw [hnil, seedLoop, htake]
    rw [if_pos hz, Nat.add_zero]
    simp only [List.isEmpty_nil, if_true]
    exact ⟨okArticles records, rfl, rfl⟩
  · cases hd : (okArticles records).drop
        (B * ((okArticles records).length / B)) with
    | nil =>
      exfalso
      rw [hd] at hdroplen
      simp only [List.length_nil] at hdroplen
      omega
    | cons x xs =>
      rw [seedLoop]
      rw [if_neg hz]
      simp only [List.isEmpty_cons, Bool.false_eq_true, if_false]
      refine ⟨_, rfl, ?_⟩
      have hjoin : (okArticles records).take
            (B * ((okArticles records).length / B)) ++ x :: xs =
          okArticles records := by
        rw [← hd]
        exact List.take_append_drop ..
      rw [hjoin]

/-- Well-formed sample record (numeric id, parseable timestamp). -/
def csvRowA : CsvRow :=
  CsvRow.mk (some ("1")) (some ("alpha")) (some ("body one")) none none
    (some ("2024-01-02"))

/-- Sample record with a numeric id but an unparseable timestamp. -/
def csvRowB : CsvRow :=
  CsvRow.mk (some ("2")) (some ("beta")) (some ("body two")) none none
    (some ("not-a-date"))

/-- Well-formed sample record with no timestamp column. -/
def csvRowC : CsvRow :=
  CsvRow.mk (some ("3")) (some ("gamma")) (some ("body three")) none none none

/-- Sample record whose id column is missing. -/
def csvRowBadId : CsvRow :=
  CsvRow.mk none (some ("delta")) (some ("body four")) none none none

theorem ingest_batch_correct_witness :
    0 < 2 ∧
    (∃ inserted, ingest 0 [csvRowA, csvRowB, csvRowC] 2 =
        IngestOutcome.done inserted
          (([csvRowA, csvRowB, csvRowC].length + 2 - 1) / 2) ∧
      inserted.length = [csvRowA, csvRowB, csvRowC].length) :=
  ⟨by decide,
    ingest_batch_correct [csvRowA, csvRowB, csvRowC] 2 (by decide)
      (by
        intro r hr
        rw [processRow_isOk]
        fin_cases hr <;> decide)⟩

/-- C9: during ingestion a present-but-unparseable timestamp resolves to no
timestamp and does not abort (record processing succeeds whenever the id
parses), whereas a missing or non-numeric id makes the record raise and
aborts the whole run; the batches committed before the abort — the full
`B`-sized prefixes of the successfully processed records — stay committed,
and nothing else is. -/
theorem ingestion_error_handling :
    (∀ (r : CsvRow) (aid : Int), intOfRowId r.id = Except.ok aid →
        (processRow r).isOk = true) ∧
    (∀ r : CsvRow, (intOfRowId r.id).isOk = false →
        (processRow r).isOk = false) ∧
    (∀ (r : CsvRow) (s : String) (aid : Int), r.published_at = some s →
        fromisoformat (pyReplaceZ s) = none →
        intOfRowId r.id = Except.ok aid →
        ∃ a, processRow r = Except.ok a ∧ a.published_at = none) ∧
    (∀ (good : List CsvRow) (bad : CsvRow) (rest : List CsvRow) (B : Nat),
        0 < B → (∀ g ∈ good, (processRow g).isOk = true) →
        (processRow bad).isOk = false →
        ∃ e, ingest 0 (good ++ bad :: rest) B =
          IngestOutcome.aborted
            ((okArticles good).take (B * (good.length / B)))
            (good.length / B) e) := by
  refine ⟨?_, ?_, ?_, ?_⟩
  · intro r aid h
    rw [processRow_isOk, h]
    rfl
  · intro r h
    rw [processRow_isOk]
    exact h
  · intro r s aid hps hbad h
    refine ⟨_, processRow_ok_of_id r aid h, ?_⟩
    show parse_ts r.published_at = none
    rw [hps]
    simp only [parse_ts]
    by_cases hs : s = ("" : String)
    · rw [if_pos hs]
    · rw [if_neg hs]
      exact hbad
  · intro good bad rest B hB hgood hbad
    unfold ingest
    rw [if_neg (lt_irrefl 0)]
    have h := seedLoop_processed B hB good (bad :: rest) [] [] 0
      (by simpa using hB) hgood
    simp only [List.append_nil, List.nil_append, Nat.zero_add] at h
    rw [h]
    cases hpb : processRow bad with
    | ok a =>
      rw [hpb] at hbad
      exact absurd hbad (by simp [Except.isOk, Except.toBool])
    | error e =>
      refine ⟨e, ?_⟩
      rw [seedLoop, hpb]
      dsimp only
      rw [okArticles_length good hgood]

theorem ingestion_error_handling_witness :
    (processRow csvRowA).isOk = true ∧
    (∃ a, processRow csvRowB = Except.ok a ∧ a.published_at = none) ∧
    (∃ e, ingest 0 ([csvRowA] ++ csvRowBadId :: []) 500 =
        IngestOutcome.aborted
          ((okArticles [csvRowA]).take (500 * ([csvRowA].length / 500)))
          ([csvRowA].length / 500) e) :=
  ⟨ingestion_error_handling.1 csvRowA 1 rfl,
    ingestion_error_handling.2.2.1 csvRowB ("not-a-date") 2 rfl (by decide) rfl,
    ingestion_error_handling.2.2.2 [csvRowA] csvRowBadId [] 500 (by decide)
      (fun g hg => by
        rw [List.mem_singleton] at hg
        subst hg
        exact ingestion_error_handling.1 csvRowA 1 rfl)
      (ingestion_error_handling.2.1 csvRowBadId (by decide))⟩

/-- C7 counterexample: the claim quantifies over both copies of the
embedding path and includes null input, but the ingestion-script copy of
`embed_text` applies `.lower()` to its argument with no guard
(`import_articles.py` line 33), so calling it with `None` raises
`AttributeError` instead of returning the zero vector. -/
theorem script_embed_none_raises :
    (embed_text_script_call none EMBEDDING_DIM).isOk = false := rfl

/-- C7 amended: for every string input, including the empty string,
tokenization and both embedding copies are total and never raise, and a
token-free input embeds to the zero vector; the HTTP-layer `embed_text`
additionally accepts null and returns the zero vector for it; only the
ingestion-script copy raises on null (its callers always pass strings). -/
theorem embedding_totality_amended (dim : Nat) :
    (∀ s : String, embed_text_script_call (some s) dim =
        Except.ok (embed_text_script s dim)) ∧
    (embed_text_main none dim = List.replicate dim (0 : ℝ)) ∧
    (tokenize ("" : String) = []) ∧
    (∀ s : String, tokenize s = [] →
        embed_text_main (some s) dim = List.replicate dim (0 : ℝ)) := by
  refine ⟨fun s => rfl, ?_, rfl, ?_⟩
  · show normalizeVec (hashAccum (tokenize (pyStrOr none (""))) dim) = _
    have h1 : tokenize (pyStrOr none ("")) = [] := rfl
    rw [h1]
    have h0 : hashAccum [] dim = List.replicate dim 0 := rfl
    rw [h0]
    exact normalizeVec_replicate_zero dim
  · intro s hnil
    rw [embed_text_main_eq, hnil]
    have h0 : hashAccum [] dim = List.replicate dim 0 := rfl
    rw [h0]
    exact normalizeVec_replicate_zero dim

theorem embedding_totality_amended_witness :
    tokenize (".,;") = [] ∧
    embed_text_main (some (".,;")) 384 = List.replicate 384 (0 : ℝ) :=
  ⟨by decide, (embedding_totality_amended 384).2.2.2 (".,;") (by decide)⟩

/-- C10: the two independently defined copies of `embed_text` — the HTTP
layer one (`main.py` lines 30-40) and the ingestion-script one
(`import_articles.py` lines 32-42) — compute identical vectors for every
non-null text and every `dim`; their bodies differ only in the null guard
`(text or "")` of `main.py` line 31, which is the identity on strings. -/
theorem embed_copies_agree (s : String) (dim : Nat) :
    embed_text_main (some s) dim = embed_text_script s dim := by
  unfold embed_text_main embed_text_script
  rw [pyStrOr_some]

/-- C4: for every store contents, distance operator, query text, limit and
max_distance, the hit list of `semantic_search` is sorted in non-decreasing
order of distance, every returned distance is at most `max_distance`
(inclusive upper bound), and the number of hits is at most `limit`. -/
theorem search_ranking (table : List StoredRow) (dop : List ℝ → List ℝ → ℝ)
    (q : String) (limit : Nat) (maxd : ℝ) :
    (semantic_search table dop q limit maxd).length ≤ limit ∧
    List.Sorted (· ≤ ·)
      ((semantic_search table dop q limit maxd).map SearchHit.distance) ∧
    List.Forall (fun h => h.distance ≤ maxd)
      (semantic_search table dop q limit maxd) := by
  classical
  have htrans : ∀ a b c : StoredRow × ℝ,
      (decide (a.2 ≤ b.2)) = true → (decide (b.2 ≤ c.2)) = true →
      (decide (a.2 ≤ c.2)) = true := by
    intro a b c hab hbc
    exact decide_eq_true (le_trans (of_decide_eq_true hab) (of_decide_eq_true hbc))
  have htotal : ∀ a b : StoredRow × ℝ,
      ((decide (a.2 ≤ b.2)) || (decide (b.2 ≤ a.2))) = true := by
    intro a b
    rcases le_total a.2 b.2 with h | h
    · simp [h]
    · simp [h]
  refine ⟨?_, ?_, ?_⟩
  · simp only [semantic_search, sqlSearchRows, List.length_map, List.length_take]
    exact min_le_left _ _
  · simp only [semantic_search, sqlSearchRows, List.map_map]
    rw [List.Sorted, List.pairwise_map]
    refine List.Pairwise.sublist (List.take_sublist _ _) ?_
    refine (List.sorted_mergeSort htrans htotal _).imp ?_
    intro a b h
    exact of_decide_eq_true h
  · rw [List.forall_iff_forall_mem]
    intro x hx
    simp only [semantic_search, sqlSearchRows] at hx
    rw [List.mem_map] at hx
    obtain ⟨rd, hrd, hmk⟩ := hx
    have hrd2 := (List.take_sublist _ _).subset hrd
    have hrd3 := (List.mergeSort_perm _ _).mem_iff.1 hrd2
    have hfil := (List.mem_filter.1 hrd3).2
    rw [← hmk]
    exact of_decide_eq_true hfil

/-- C8: every hit carries `score = 1 / (1 + distance)`; for every distance
`d ≥ 0` the score lies in the interval (0, 1]; and the score is strictly
decreasing in the distance. -/
theorem score_correct :
    (∀ (table : List StoredRow) (dop : List ℝ → List ℝ → ℝ) (q : String)
        (limit : Nat) (maxd : ℝ),
      (semantic_search table dop q limit maxd).map SearchHit.score =
        (semantic_search table dop q limit maxd).map
          (fun h => score_of h.distance)) ∧
    (∀ d : ℝ, 0 ≤ d → 0 < score_of d ∧ score_of d ≤ 1) ∧
    (∀ d1 d2 : ℝ, 0 ≤ d1 → d1 < d2 → score_of d2 < score_of d1) := by
  refine ⟨?_, ?_, ?_⟩
  · intro table dop q limit maxd
    simp only [semantic_search, List.map_map]
    rfl
  · intro d hd
    have h1 : (0 : ℝ) < 1 + d := by linarith
    constructor
    · exact one_div_pos.2 h1
    · unfold score_of
      rw [div_le_one h1]
      linarith
  · intro d1 d2 hd1 hlt
    have h1 : (0 : ℝ) < 1 + d1 := by linarith
    unfold score_of
    exact one_div_lt_one_div_of_lt h1 (by linarith)

theorem score_correct_witness :
    ((0 : ℝ) ≤ 0 ∧ 0 < score_of 0 ∧ score_of 0 ≤ 1) ∧
    ((0 : ℝ) ≤ 0 ∧ (0 : ℝ) < 1 ∧ score_of 1 < score_of 0) :=
  ⟨⟨le_refl 0, score_correct.2.1 0 (le_refl 0)⟩,
    ⟨le_refl 0, by norm_num, score_correct.2.2 0 1 (le_refl 0) (by norm_num)⟩⟩
